import Mathlib

/-
Verification of the epistle registry plugin
(src/.rhizome/plugins/epistles/epistles_commands.py).

The Python module is shallowly embedded below: the backing registry file
is a list of physical lines, records are a structure mirroring the dict
built in cmd_epistle_new, and each command is a Lean function over an
explicit state.  I/O failures (exceptions) are injected through explicit
outcome parameters, since the Python code catches them with try/except.
Python string methods used by the source (lower, startswith, split,
replace, join, lexicographic comparison) are embedded as executable
functions over the character data of a string.
-/

/-- Embedding of the Python str.lower method (ASCII case folding,
which is all the source relies on). -/
def pyLower (s : String) : String := ⟨s.data.map Char.toLower⟩

/-- Character-level check that the second list is a leading segment of
the first, as Python str.startswith does. -/
def startsWithChars : List Char → List Char → Bool
  | _, [] => true
  | [], _ :: _ => false
  | a :: as, b :: bs => a == b && startsWithChars as bs

/-- Embedding of the Python expression s.startswith(pat). -/
def pyStartsWith (s pat : String) : Bool := startsWithChars s.data pat.data

/-- Lexicographic less-or-equal on character lists by code point, with
the shorter-is-smaller rule: the order Python uses for str comparison. -/
def pyStrLe : List Char → List Char → Bool
  | [], _ => true
  | _ :: _, [] => false
  | a :: as, b :: bs =>
    if a < b then true else if b < a then false else pyStrLe as bs

/-- Embedding of the Python expression a >= b on strings. -/
def pyGe (a b : String) : Bool := pyStrLe b.data a.data

/-- Helper for pySplitComma: current (reversed) chunk plus rest. -/
def splitCommaAux (cur : List Char) : List Char → List String
  | [] => [⟨cur.reverse⟩]
  | c :: cs =>
    if c == ',' then ⟨cur.reverse⟩ :: splitCommaAux [] cs
    else splitCommaAux (c :: cur) cs

/-- Embedding of the Python expression s.split(\x27,\x27). -/
def pySplitComma (s : String) : List String := splitCommaAux [] s.data

/-- Embedding of the Python expression s.replace(" ", "-"). -/
def pyReplaceSpace (s : String) : String :=
  ⟨s.data.map (fun c => if c == ' ' then '-' else c)⟩

/-- Embedding of the Python expression "_".join(parts). -/
def joinUnderscore : List String → String
  | [] => ""
  | [s] => s
  | s :: rest => s ++ "_" ++ joinUnderscore rest

/-- Python truthiness of an optional string argument: None and the empty
string are both falsy (the source guards filters with if args.x). -/
def truthy : Option String → Bool
  | none => false
  | some s => !s.data.isEmpty

/-- One record of the registry, mirroring the dict literal built in
cmd_epistle_new (lines 89 to 100 of the source). -/
structure Epistle where
  id : String
  date : String
  personas : List String
  topic : String
  prompted_by : Option String
  file : String
  status : String
  references : List String
  context : List String
  keywords : List String
deriving DecidableEq

/-- One physical line of the registry.ndjson backing file: a line that
strips to empty, a line on which json.loads raises, or the json.dumps
serialization of one record. -/
inductive Line where
  | blank : Line
  | malformed : Line
  | record : Epistle → Line
deriving DecidableEq

/-- The records carried by a list of lines in order (blank and malformed
lines carry none). -/
def lineRecords (ls : List Line) : List Epistle :=
  ls.filterMap (fun l => match l with | Line.record e => some e | _ => none)

/-- Loop body of _load_registry (lines 50 to 53): iterate over the lines,
skip blank lines, append each parsed record; a parse failure raises, is
caught outside the loop, and a diagnostic is printed to stderr.  The
result is the list built so far paired with the stderr output. -/
def loadAux : List Line → List Epistle → List Epistle × List String
  | [], acc => (acc, [])
  | Line.blank :: rest, acc => loadAux rest acc
  | Line.malformed :: _, acc => (acc, ["Error loading registry"])
  | Line.record e :: rest, acc => loadAux rest (acc ++ [e])

/-- Embedding of _load_registry (lines 43 to 56).  The argument is the
backing file content, none when the file does not exist.  Returns the
loaded records and the stderr output; the Python function always returns
the list normally, it never raises to its caller. -/
def loadRegistry : Option (List Line) → List Epistle × List String
  | none => ([], [])
  | some lines => loadAux lines []

/-- Injected outcome of the file I/O inside _save_registry: everything
succeeds, the open call itself raises, or the open succeeds (truncating
the file in place, mode w) and the write raises after k complete lines
have been persisted. -/
inductive SaveOutcome where
  | ok : SaveOutcome
  | openFail : SaveOutcome
  | writeFail : Nat → SaveOutcome
deriving DecidableEq

/-- Embedding of _save_registry (lines 59 to 67).  The file is opened
with mode w, which truncates it immediately; each record is then written
as one line.  An exception is caught and printed to stderr; the function
returns normally in every case.  Returns the new backing file content
and the stderr output. -/
def saveRegistry (eps : List Epistle) (outcome : SaveOutcome)
    (prev : Option (List Line)) : Option (List Line) × List String :=
  match outcome with
  | SaveOutcome.ok => (some (eps.map Line.record), [])
  | SaveOutcome.openFail => (prev, ["Error saving registry"])
  | SaveOutcome.writeFail k =>
      (some ((eps.take k).map Line.record), ["Error saving registry"])

/-- A concrete record used in witnesses and counterexamples.  Its file
name starts with the text epistle-5, while its id does not. -/
def epA : Epistle :=
  { id := "a-1", date := "2025-01-01", personas := ["Alice", "Bob"],
    topic := "T", prompted_by := none, file := "epistle-50_alice.md",
    status := "draft", references := [], context := [], keywords := [] }

/-- A second concrete record, with id epistle-5. -/
def epB : Epistle :=
  { id := "epistle-5", date := "2025-02-03", personas := ["Carol", "Dan"],
    topic := "U", prompted_by := some "fp-1", file := "carol_dan_x.md",
    status := "draft", references := [], context := ["a.md"], keywords := ["k"] }

/-- The match condition of the lookup loop in cmd_epistle_show (line
193 of the source): exact case-insensitive id match, or the lowered
file name starts with the lowered identifier. -/
def matchesShow (ep : Epistle) (target : String) : Prop :=
  pyLower ep.id = target ∨ pyStartsWith (pyLower ep.file) target = true

instance (ep : Epistle) (target : String) : Decidable (matchesShow ep target) :=
  inferInstanceAs (Decidable (_ ∨ _))

/-- Lookup loop of cmd_epistle_show (lines 191 to 195): one pass over
the registry, stopping at the first record satisfying either condition
of the disjunction. -/
def showLoop : List Epistle → String → Option Epistle
  | [], _ => none
  | ep :: rest, target =>
    if matchesShow ep target then some ep else showLoop rest target

/-- Embedding of the record lookup of cmd_epistle_show (lines 185 to
195): the identifier is lowered once, then the loop runs. -/
def showFind (eps : List Epistle) (identifier : String) : Option Epistle :=
  showLoop eps (pyLower identifier)

/-- Filtering part of cmd_epistle_list (lines 166 to 176): the persona
filter keeps records whose lowered personas contain the lowered filter
string, the since filter keeps records whose date compares at least the
given date; each filter is applied only when its argument is truthy. -/
def listFiltered (eps : List Epistle) (fil sinceDate : Option String) : List Epistle :=
  let eps1 :=
    if truthy fil then
      eps.filter (fun e => decide (pyLower (fil.getD "") ∈ e.personas.map pyLower))
    else eps
  if truthy sinceDate then
    eps1.filter (fun e => pyGe e.date (sinceDate.getD ""))
  else eps1

/-- Context-append loop of cmd_epistle_add_context (lines 251 to 256):
each path of the argument list is appended to the record context unless
it is already present there, checks running against the list as it
grows. -/
def addContextPaths (ctx : List String) : List String → List String
  | [] => ctx
  | p :: ps =>
    if p ∈ ctx then addContextPaths ctx ps else addContextPaths (ctx ++ [p]) ps

/-- Lookup-and-update of cmd_epistle_add_context (lines 240 to 256): the
first record whose lowered id equals the lowered identifier is mutated
in place (its context extended by addContextPaths); no file-name
fallback exists here.  Returns the updated registry and the updated
record, or none when no id matches. -/
def addContextReg : List Epistle → String → List String → Option (List Epistle × Epistle)
  | [], _, _ => none
  | ep :: rest, target, paths =>
    if pyLower ep.id = target then
      let ep2 := { ep with context := addContextPaths ep.context paths }
      some (ep2 :: rest, ep2)
    else
      match addContextReg rest target paths with
      | none => none
      | some (rest2, e2) => some (ep :: rest2, e2)

/-- Candidate file names tried by the collision loop of cmd_epistle_new
(lines 80 to 87): the base name for counter zero, then the base with an
increasing integer suffix. -/
def candidate (base : String) (k : Nat) : String :=
  if k = 0 then base ++ ".md" else base ++ "_" ++ Nat.repr k ++ ".md"

/-- The while loop of cmd_epistle_new (lines 84 to 86), embedded with
explicit fuel: try candidate k; when it exists in the directory, move to
counter k plus one.  Exhausted fuel models non-termination; the
termination theorem shows sufficient fuel always returns some name. -/
def findFreeName (existing : List String) (base : String) : Nat → Nat → Option String
  | 0, _ => none
  | fuel+1, k =>
    if candidate base k ∈ existing then findFreeName existing base fuel (k+1)
    else some (candidate base k)

/-- The collision loop as invoked by cmd_epistle_new, with fuel one more
than the number of existing files, which the pigeonhole argument shows
is always enough. -/
def uniqueFilename (existing : List String) (base : String) : Option String :=
  findFreeName existing base (existing.length + 1) 0

/-- Decimal decoder used to show that Nat.repr is injective. -/
def decNum (l : List Char) : Nat := l.foldl (fun a c => 10 * a + (c.toNat - 48)) 0

/-- Arguments of the new subcommand (argparse fields used by
cmd_epistle_new). -/
structure NewArgs where
  with_personas : Option String
  topic : Option String
  prompted_by : Option String
  context : Option (List String)
  keywords : Option String
deriving DecidableEq

/-- Wall-clock readings taken by cmd_epistle_new: the integer epoch
second and the two strftime renderings of the same moment. -/
structure Env where
  epoch : Int
  tsCompact : String
  dateStr : String
deriving DecidableEq

/-- File-system state seen by the plugin: the names present in the
epistles directory and the content of the registry backing file (none
when absent). -/
structure FState where
  dirFiles : List String
  registryFile : Option (List Line)
deriving DecidableEq

/-- Embedding of cmd_epistle_new (lines 70 to 109).  Splits the
personas, exits on fewer than two, derives the slug, timestamped base
name and collision-free file name, builds the record, writes the
satellite document (creating the file unless the injected docFail flag
says the write raised, in which case _write_epistle_template swallows
the exception), then unconditionally loads the registry, appends the
record and saves.  Returns the new state and the created record (none
on the early exit). -/
def cmd_epistle_new (args : NewArgs) (env : Env) (docFail : Bool) (s : FState) :
    FState × Option Epistle :=
  let personas :=
    if truthy args.with_personas then pySplitComma (args.with_personas.getD "") else []
  if personas.length < 2 then (s, none)
  else
    let persona_slug := joinUnderscore (personas.map (fun p => pyReplaceSpace (pyLower p)))
    let base := persona_slug ++ "_" ++ env.tsCompact
    match uniqueFilename s.dirFiles base with
    | none => (s, none)
    | some filename =>
      let ep : Epistle :=
        { id := "epistle-" ++ toString env.epoch
          date := env.dateStr
          personas := personas
          topic := if truthy args.topic then args.topic.getD "" else "Untitled"
          prompted_by := if truthy args.prompted_by then args.prompted_by else none
          file := filename
          status := "draft"
          references := []
          context := args.context.getD []
          keywords := if truthy args.keywords then pySplitComma (args.keywords.getD "") else [] }
      let dirFiles2 := if docFail then s.dirFiles else s.dirFiles ++ [filename]
      let loaded := (loadRegistry s.registryFile).1
      let reg2 := (saveRegistry (loaded ++ [ep]) SaveOutcome.ok s.registryFile).1
      ({ dirFiles := dirFiles2, registryFile := reg2 }, some ep)

/-- A sequence of Create invocations under normal operation (document
writes succeed), collecting the created records. -/
def runCreates : FState → List (NewArgs × Env) → FState × List Epistle
  | s, [] => (s, [])
  | s, (a, e) :: rest =>
    match cmd_epistle_new a e false s with
    | (s2, some ep) =>
      let res := runCreates s2 rest
      (res.1, ep :: res.2)
    | (s2, none) => runCreates s2 rest

/-- Concrete arguments: two personas, a topic, nothing else. -/
def newArgsAB : NewArgs :=
  { with_personas := some "Alice,Bob", topic := some "X",
    prompted_by := none, context := none, keywords := none }

/-- Concrete clock readings for one wall-clock second. -/
def envJan : Env :=
  { epoch := 1735689600, tsCompact := "20250101T000000", dateStr := "2025-01-01" }

/-- Initial state: empty directory, no registry file. -/
def st0 : FState := { dirFiles := [], registryFile := none }

/-- Loading lines that all serialize records yields exactly those
records appended to the accumulator, with no stderr output. -/
theorem loadAux_map_record (eps : List Epistle) :
    ∀ acc : List Epistle, loadAux (eps.map Line.record) acc = (acc ++ eps, []) := by
  induction eps with
  | nil => intro acc; simp [loadAux]
  | cons e rest ih =>
      intro acc
      simp only [List.map_cons, loadAux, ih]
      simp

/-- C8: for every sequence of records X, including the empty sequence, a
successful save of X followed by load yields exactly X (and a clean
stderr), whatever the previous backing file held; hence save after load
leaves the logical content of the backing file unchanged. -/
theorem C8_save_load_roundtrip (eps : List Epistle) (prev : Option (List Line)) :
    loadRegistry (saveRegistry eps SaveOutcome.ok prev).1 = (eps, []) := by
  simp [saveRegistry, loadRegistry, loadAux_map_record]

/-- Loading lines that contain no malformed line, followed by a
malformed line and anything after it, yields the accumulator plus the
records of the clean lines, with the load error printed to stderr. -/
theorem loadAux_until_malformed :
    ∀ (good : List Line), (∀ l ∈ good, l ≠ Line.malformed) →
    ∀ (post : List Line) (acc : List Epistle),
      loadAux (good ++ Line.malformed :: post) acc =
        (acc ++ lineRecords good, ["Error loading registry"])
  | [], _, post, acc => by simp [loadAux, lineRecords]
  | Line.blank :: rest, h, post, acc => by
      have hrest : ∀ x ∈ rest, x ≠ Line.malformed := fun x hx =>
        h x (List.mem_cons_of_mem _ hx)
      show loadAux (rest ++ Line.malformed :: post) acc = _
      rw [loadAux_until_malformed rest hrest post acc]
      rfl
  | Line.malformed :: rest, h, post, acc =>
      absurd rfl (h Line.malformed (List.mem_cons_self _ _))
  | Line.record e :: rest, h, post, acc => by
      have hrest : ∀ x ∈ rest, x ≠ Line.malformed := fun x hx =>
        h x (List.mem_cons_of_mem _ hx)
      show loadAux (rest ++ Line.malformed :: post) (acc ++ [e]) = _
      rw [loadAux_until_malformed rest hrest post (acc ++ [e])]
      simp [lineRecords]

/-- C10: when the backing file holds clean lines, then a malformed line,
then anything, load returns exactly the records of the lines before the
malformed one, discards the rest, prints a diagnostic to stderr, and
returns normally to its caller (no error value, no skip-and-continue). -/
theorem C10_load_stops_at_malformed (good post : List Line)
    (h : ∀ l ∈ good, l ≠ Line.malformed) :
    loadRegistry (some (good ++ Line.malformed :: post)) =
      (lineRecords good, ["Error loading registry"]) := by
  simp [loadRegistry, loadAux_until_malformed good h post]

/-- Witness for C10 at a concrete backing file: one record line, one
blank line, a malformed line, then another record line. -/
theorem C10_load_stops_at_malformed_witness :
    loadRegistry (some [Line.record epA, Line.blank, Line.malformed, Line.record epB]) =
      ([epA], ["Error loading registry"]) :=
  C10_load_stops_at_malformed [Line.record epA, Line.blank] [Line.record epB] (by decide)

/-- C2 evaluated at a failing input: the backing file persists the
single record epA; a save of [epA, epB] whose write raises before the
first line is flushed leaves the file empty (mode w truncated it in
place), so the previously persisted sequence is destroyed, and a
mid-write failure after one line leaves a partial state. -/
theorem C2_failed_save_truncates :
    (saveRegistry [epA, epB] (SaveOutcome.writeFail 0) (some [Line.record epA])).1 = some [] ∧
    (loadRegistry (saveRegistry [epA, epB] (SaveOutcome.writeFail 0) (some [Line.record epA])).1).1 = [] ∧
    (loadRegistry (some [Line.record epA])).1 = [epA] ∧
    (saveRegistry [epB, epA] (SaveOutcome.writeFail 1) (some [Line.record epA])).1 =
      some [Line.record epB] := by
  refine ⟨rfl, rfl, rfl, rfl⟩

/-- C4 counterexample: a load that hits a parse failure returns exactly
the same value to its caller as a clean load of the shorter file (the
failure is only visible on stderr, not as an error of the operation),
and a save that fails mid-write corrupts the store by truncation. -/
theorem C4_io_error_counterexample :
    (loadRegistry (some [Line.record epA, Line.malformed])).1 =
      (loadRegistry (some [Line.record epA])).1 ∧
    (loadRegistry (some [Line.record epA, Line.malformed])).2 ≠ [] ∧
    (saveRegistry [epA, epB] (SaveOutcome.writeFail 0) (some [Line.record epA])).1 = some [] := by
  refine ⟨rfl, by decide, rfl⟩

/-- C4 amended: an I/O failure inside save is caught there and reported
only as an stderr diagnostic; the function returns normally, the store
is left holding exactly the lines written before the failure, and a
later load of that truncated content succeeds with no error indication
at all. -/
theorem C4_silent_failure (eps : List Epistle) (k : Nat) (prev : Option (List Line)) :
    loadRegistry (saveRegistry eps (SaveOutcome.writeFail k) prev).1 = (eps.take k, []) ∧
    (saveRegistry eps (SaveOutcome.writeFail k) prev).2 = ["Error saving registry"] := by
  constructor
  · show loadRegistry (some ((eps.take k).map Line.record)) = _
    simp [loadRegistry, ← List.map_take, loadAux_map_record]
  · rfl

/-- The show loop returns the first record, in registry order, whose id
or file matches, whatever comes after it. -/
theorem showLoop_first :
    ∀ (pre : List Epistle) (t : String), (∀ x ∈ pre, ¬ matchesShow x t) →
    ∀ (ep : Epistle) (post : List Epistle), matchesShow ep t →
      showLoop (pre ++ ep :: post) t = some ep
  | [], t, _, ep, post, hep => by simp [showLoop, if_pos hep]
  | x :: rest, t, h, ep, post, hep => by
      have hx : ¬ matchesShow x t := h x (List.mem_cons_self _ _)
      show (if matchesShow x t then some x else showLoop (rest ++ ep :: post) t) = some ep
      rw [if_neg hx]
      exact showLoop_first rest t (fun y hy => h y (List.mem_cons_of_mem _ hy)) ep post hep

/-- C3 counterexample: the registry holds epA then epB, and the
identifier is exactly the id of epB; the code nevertheless returns epA,
whose file name merely starts with the identifier, because the single
pass takes the first record matching either condition.  An exact id
match therefore does not take priority over an earlier file-prefix
match. -/
theorem C3_show_counterexample :
    showFind [epA, epB] "epistle-5" = some epA ∧
    epA ≠ epB ∧
    pyLower epB.id = pyLower "epistle-5" ∧
    pyLower epA.id ≠ pyLower "epistle-5" := by
  refine ⟨by decide, by decide, by decide, by decide⟩

/-- C3 amended: Show resolves its identifier by a single case-insensitive
pass in registry order, returning the first record whose id matches
exactly or whose file starts with the identifier; both conditions are
tested together on each record, so registry order, not the id condition,
decides which record wins. -/
theorem C3_show_first_match (pre post : List Epistle) (ep : Epistle) (identifier : String)
    (hpre : ∀ x ∈ pre, ¬ matchesShow x (pyLower identifier))
    (hep : matchesShow ep (pyLower identifier)) :
    showFind (pre ++ ep :: post) identifier = some ep :=
  showLoop_first pre (pyLower identifier) hpre ep post hep

/-- Witness for the amended C3: with epB first and epA second, the
identifier a-1 matches no condition on epB and matches the id of epA,
so the lookup returns epA. -/
theorem C3_show_first_match_witness : showFind [epB, epA] "a-1" = some epA :=
  C3_show_first_match [epB] [] epA "a-1" (by decide) (by decide)

/-- A nonempty string is truthy. -/
theorem truthy_some_of_ne (p : String) (h : p ≠ "") : truthy (some p) = true := by
  cases hp : p.data with
  | nil => exact absurd (String.ext hp) h
  | cons c cs => simp [truthy, hp]

/-- The character-level comparison pyStrLe is exactly the reflexive
closure of strict lexicographic order by code point. -/
theorem pyStrLe_iff_lex :
    ∀ u v : List Char, pyStrLe u v = true ↔ (u = v ∨ List.Lex (fun a b => a < b) u v)
  | [], [] => by simp [pyStrLe]
  | [], b :: bs => by
      simp only [pyStrLe]
      constructor
      · intro _; exact Or.inr List.Lex.nil
      · intro _; trivial
  | a :: as, [] => by
      simp only [pyStrLe]
      constructor
      · intro h; exact absurd h (by decide)
      · rintro (h | h)
        · exact (List.cons_ne_nil a as h).elim
        · cases h
  | a :: as, b :: bs => by
      show (if a < b then true else if b < a then false else pyStrLe as bs) = true ↔ _
      rcases lt_trichotomy a b with hab | hab | hab
      · rw [if_pos hab]
        constructor
        · intro _; exact Or.inr (List.Lex.rel hab)
        · intro _; rfl
      · subst hab
        rw [if_neg (lt_irrefl a), if_neg (lt_irrefl a)]
        rw [pyStrLe_iff_lex as bs]
        constructor
        · rintro (h | h)
          · exact Or.inl (by rw [h])
          · exact Or.inr (List.Lex.cons h)
        · rintro (h | h)
          · refine Or.inl ?_
            injection h
          · cases h with
            | cons h2 => exact Or.inr h2
            | rel h2 => exact absurd h2 (lt_irrefl a)
      · have h2 : ¬ a < b := fun h => lt_asymm h hab
        rw [if_neg h2, if_pos hab]
        constructor
        · intro h; exact absurd h (by decide)
        · rintro (h | h)
          · injection h with h3 h4
            exact absurd h3 (ne_of_gt hab)
          · cases h with
            | cons h3 => exact absurd hab (lt_irrefl _)
            | rel h3 => exact absurd h3 h2

/-- Branch lemma: with a truthy persona filter and no date filter, the
list command keeps exactly the records passing the persona test. -/
theorem listFiltered_persona (eps : List Epistle) (p : String)
    (hp : truthy (some p) = true) :
    listFiltered eps (some p) none =
      eps.filter (fun e => decide (pyLower p ∈ e.personas.map pyLower)) := by
  unfold listFiltered
  rw [hp]
  rfl

/-- Branch lemma: with no persona filter and a truthy date filter, the
list command keeps exactly the records passing the date test. -/
theorem listFiltered_date (eps : List Epistle) (d : String)
    (hd : truthy (some d) = true) :
    listFiltered eps none (some d) = eps.filter (fun e => pyGe e.date d) := by
  unfold listFiltered
  rw [hd]
  rfl

/-- Branch lemma: with both filters truthy, the date filter runs on the
output of the persona filter. -/
theorem listFiltered_both (eps : List Epistle) (p d : String)
    (hp : truthy (some p) = true) (hd : truthy (some d) = true) :
    listFiltered eps (some p) (some d) =
      (eps.filter (fun e => decide (pyLower p ∈ e.personas.map pyLower))).filter
        (fun e => pyGe e.date d) := by
  unfold listFiltered
  rw [hp, hd]
  rfl

/-- C6: with both filters supplied (nonempty, hence truthy), List keeps
exactly the records where the persona case-insensitively equals some
entry of personas and the date is at least the bound, combined with
logical and; each filter alone keeps exactly its own subset; omitted
filters exclude nothing; and the date test is exactly the reflexive
lexicographic order on the character data. -/
theorem C6_list_filters (eps : List Epistle) (p d : String) (hp : p ≠ "") (hd : d ≠ "") :
    listFiltered eps (some p) (some d) =
      eps.filter (fun e =>
        decide (∃ q ∈ e.personas, pyLower q = pyLower p) && pyGe e.date d) ∧
    listFiltered eps (some p) none =
      eps.filter (fun e => decide (∃ q ∈ e.personas, pyLower q = pyLower p)) ∧
    listFiltered eps none (some d) = eps.filter (fun e => pyGe e.date d) ∧
    listFiltered eps none none = eps ∧
    (∀ x y : String, pyGe x y = true ↔ (y = x ∨ List.Lex (fun a b => a < b) y.data x.data)) := by
  have hpt : truthy (some p) = true := truthy_some_of_ne p hp
  have hdt : truthy (some d) = true := truthy_some_of_ne d hd
  have hmem : ∀ e : Epistle,
      decide (pyLower (p : String) ∈ e.personas.map pyLower) =
        decide (∃ q ∈ e.personas, pyLower q = pyLower p) := by
    intro e
    apply decide_eq_decide.mpr
    exact List.mem_map
  refine ⟨?_, ?_, ?_, ?_, ?_⟩
  · rw [listFiltered_both eps p d hpt hdt, List.filter_filter]
    apply List.filter_congr
    intro e _
    rw [Bool.and_comm, hmem e]
  · rw [listFiltered_persona eps p hpt]
    apply List.filter_congr
    intro e _
    exact hmem e
  · exact listFiltered_date eps d hdt
  · rfl
  · intro x y
    rw [show pyGe x y = pyStrLe y.data x.data from rfl, pyStrLe_iff_lex y.data x.data]
    constructor
    · rintro (h | h)
      · exact Or.inl (String.ext h)
      · exact Or.inr h
    · rintro (h | h)
      · exact Or.inl (congrArg String.data h)
      · exact Or.inr h

/-- Witness for C6: both filters at work on the two concrete records;
only epA has the persona alice, and its date passes the bound. -/
theorem C6_list_filters_witness :
    listFiltered [epA, epB] (some "alice") (some "2025-01-01") = [epA] := by
  have h := C6_list_filters [epA, epB] "alice" "2025-01-01" (by decide) (by decide)
  rw [h.1]
  decide

/-- Main characterization of the context-append loop: the result is the
old context plus a block of new entries that avoids the old context, is
a subsequence of the argument list (first-seen order), has no
duplicates, and covers every argument path that was not already
present. -/
theorem addContextPaths_spec :
    ∀ (paths ctx : List String), ∃ extra : List String,
      addContextPaths ctx paths = ctx ++ extra ∧
      (∀ q ∈ extra, q ∉ ctx) ∧
      extra.Sublist paths ∧
      extra.Nodup ∧
      (∀ q ∈ paths, q ∉ ctx → q ∈ extra)
  | [], ctx => ⟨[], by simp [addContextPaths], by simp, List.nil_sublist [], List.nodup_nil,
      by simp⟩
  | p :: ps, ctx => by
      by_cases hp : p ∈ ctx
      · obtain ⟨extra, h1, h2, h3, h4, h5⟩ := addContextPaths_spec ps ctx
        refine ⟨extra, ?_, h2, h3.cons p, h4, ?_⟩
        · rw [show addContextPaths ctx (p :: ps) =
            if p ∈ ctx then addContextPaths ctx ps else addContextPaths (ctx ++ [p]) ps
            from rfl, if_pos hp]
          exact h1
        · intro q hq hqctx
          rcases List.mem_cons.mp hq with rfl | hq2
          · exact absurd hp hqctx
          · exact h5 q hq2 hqctx
      · obtain ⟨extra, h1, h2, h3, h4, h5⟩ := addContextPaths_spec ps (ctx ++ [p])
        refine ⟨p :: extra, ?_, ?_, h3.cons₂ p, ?_, ?_⟩
        · rw [show addContextPaths ctx (p :: ps) =
            if p ∈ ctx then addContextPaths ctx ps else addContextPaths (ctx ++ [p]) ps
            from rfl, if_neg hp, h1, List.append_assoc]
          rfl
        · intro q hq
          rcases List.mem_cons.mp hq with rfl | hq2
          · exact hp
          · intro hqc
            exact h2 q hq2 (List.mem_append_left [p] hqc)
        · refine List.nodup_cons.mpr ⟨?_, h4⟩
          intro hpe
          exact h2 p hpe (List.mem_append_right ctx (List.mem_singleton.mpr rfl))
        · intro q hq hqctx
          rcases List.mem_cons.mp hq with rfl | hq2
          · exact List.mem_cons_self _ _
          · by_cases hqp : q = p
            · subst hqp; exact List.mem_cons_self _ _
            · refine List.mem_cons_of_mem _ (h5 q hq2 ?_)
              intro hmem
              rcases List.mem_append.mp hmem with hl | hr
              · exact hqctx hl
              · exact hqp (List.mem_singleton.mp hr)

/-- The single-path call appends the path exactly when it is new. -/
theorem addContextPaths_single (ctx : List String) (a : String) :
    addContextPaths ctx [a] = if a ∈ ctx then ctx else ctx ++ [a] := by
  by_cases h : a ∈ ctx
  · simp [addContextPaths, h]
  · simp [addContextPaths, h]

/-- C7: the context-append loop of AddContext adds exactly the argument
paths not already present, in first-seen order and without duplicates
(characterized by the extra block), a second call with the same single
path changes nothing, and starting from a context without the path, two
identical single-path calls leave exactly one occurrence of it. -/
theorem C7_add_context_dedup (ctx paths : List String) :
    (∃ extra : List String,
      addContextPaths ctx paths = ctx ++ extra ∧
      (∀ q ∈ extra, q ∉ ctx) ∧
      extra.Sublist paths ∧
      extra.Nodup ∧
      (∀ q ∈ paths, q ∉ ctx → q ∈ extra)) ∧
    (∀ a : String, addContextPaths (addContextPaths ctx [a]) [a] = addContextPaths ctx [a]) ∧
    (∀ a : String, a ∉ ctx →
      List.count a (addContextPaths (addContextPaths ctx [a]) [a]) = 1) := by
  refine ⟨addContextPaths_spec paths ctx, ?_, ?_⟩
  · intro a
    rw [addContextPaths_single ctx a]
    by_cases h : a ∈ ctx
    · rw [if_pos h, addContextPaths_single ctx a, if_pos h]
    · rw [if_neg h, addContextPaths_single (ctx ++ [a]) a,
        if_pos (List.mem_append_right ctx (List.mem_singleton.mpr rfl))]
  · intro a ha
    rw [addContextPaths_single ctx a, if_neg ha, addContextPaths_single (ctx ++ [a]) a,
      if_pos (List.mem_append_right ctx (List.mem_singleton.mpr rfl)),
      List.count_append, List.count_eq_zero.mpr ha]
    simp

/-- Witness for C7: adding a.md twice to an empty context yields the
context holding a.md exactly once. -/
theorem C7_add_context_dedup_witness :
    addContextPaths (addContextPaths [] ["a.md"]) ["a.md"] = ["a.md"] := by
  rw [(C7_add_context_dedup [] ["a.md"]).2.1 "a.md"]
  decide

/-- Unfolding equation for the digit accumulator of Nat.repr. -/
theorem toDigitsCore_succ (b f n : Nat) (ds : List Char) :
    Nat.toDigitsCore b (f+1) n ds =
      if n / b = 0 then Nat.digitChar (n % b) :: ds
      else Nat.toDigitsCore b f (n / b) (Nat.digitChar (n % b) :: ds) := by
  simp only [Nat.toDigitsCore]

/-- The digit accumulator appends to its third argument. -/
theorem toDigitsCore_acc (b : Nat) :
    ∀ (fuel n : Nat) (ds : List Char),
      Nat.toDigitsCore b fuel n ds = Nat.toDigitsCore b fuel n [] ++ ds
  | 0, n, ds => rfl
  | fuel+1, n, ds => by
      rw [toDigitsCore_succ, toDigitsCore_succ]
      by_cases h : n / b = 0
      · rw [if_pos h, if_pos h]
        rfl
      · rw [if_neg h, if_neg h,
          toDigitsCore_acc b fuel (n / b) (Nat.digitChar (n % b) :: ds),
          toDigitsCore_acc b fuel (n / b) [Nat.digitChar (n % b)],
          List.append_assoc]
        rfl

/-- A digit character decodes back to its digit. -/
theorem digitChar_toNat (m : Nat) (h : m < 10) : (Nat.digitChar m).toNat = 48 + m := by
  interval_cases m <;> rfl

/-- Appending one character multiplies the decoded value by ten and adds
the digit. -/
theorem decNum_append (xs : List Char) (d : Char) :
    decNum (xs ++ [d]) = 10 * decNum xs + (d.toNat - 48) := by
  simp [decNum, List.foldl_append]

/-- The decoder is a left inverse of the digit expansion, for any
sufficient fuel. -/
theorem decNum_toDigitsCore :
    ∀ (fuel n : Nat), n < fuel → decNum (Nat.toDigitsCore 10 fuel n []) = n
  | 0, n, h => absurd h (Nat.not_lt_zero n)
  | fuel+1, n, h => by
      rw [toDigitsCore_succ]
      by_cases hz : n / 10 = 0
      · rw [if_pos hz]
        have hn : n < 10 := by
          rcases Nat.lt_or_ge n 10 with h10 | h10
          · exact h10
          · exact absurd hz (by
              have : 1 ≤ n / 10 := Nat.le_div_iff_mul_le (by norm_num) |>.mpr (by omega)
              omega)
        show decNum [Nat.digitChar (n % 10)] = n
        rw [show decNum [Nat.digitChar (n % 10)] =
            10 * 0 + ((Nat.digitChar (n % 10)).toNat - 48) from rfl,
          digitChar_toNat (n % 10) (Nat.mod_lt n (by norm_num))]
        omega
      · rw [if_neg hz, toDigitsCore_acc, decNum_append]
        have hpos : 0 < n := by
          rcases Nat.eq_zero_or_pos n with rfl | hp
          · exact absurd (by norm_num) hz
          · exact hp
        have h10 : n / 10 < n := Nat.div_lt_self hpos (by norm_num)
        have hlt : n / 10 < fuel := by omega
        rw [decNum_toDigitsCore fuel (n / 10) hlt,
          digitChar_toNat (n % 10) (Nat.mod_lt n (by norm_num))]
        omega

/-- Nat.repr is injective: equal decimal strings come from equal
numbers. -/
theorem natRepr_injective (m n : Nat) (h : Nat.repr m = Nat.repr n) : m = n := by
  have hd : Nat.toDigitsCore 10 (m+1) m [] = Nat.toDigitsCore 10 (n+1) n [] :=
    congrArg String.data h
  calc m = decNum (Nat.toDigitsCore 10 (m+1) m []) :=
        (decNum_toDigitsCore (m+1) m (Nat.lt_succ_self m)).symm
    _ = decNum (Nat.toDigitsCore 10 (n+1) n []) := by rw [hd]
    _ = n := decNum_toDigitsCore (n+1) n (Nat.lt_succ_self n)

/-- Cancellation of a common leading string. -/
theorem string_append_left_cancel {a b c : String} (h : a ++ b = a ++ c) : b = c := by
  have hd := congrArg String.data h
  simp only [String.data_append] at hd
  exact String.ext (List.append_cancel_left hd)

/-- Cancellation of a common trailing string. -/
theorem string_append_right_cancel {a b c : String} (h : a ++ c = b ++ c) : a = b := by
  have hd := congrArg String.data h
  simp only [String.data_append] at hd
  exact String.ext (List.append_cancel_right hd)

/-- Distinct counters give distinct candidate file names. -/
theorem candidate_injective (base : String) :
    ∀ j k : Nat, candidate base j = candidate base k → j = k := by
  have hsuffix : ∀ k : Nat, k ≠ 0 → candidate base k =
      base ++ ("_" ++ (Nat.repr k ++ ".md")) := by
    intro k hk
    unfold candidate
    rw [if_neg hk]
    simp [String.append_assoc]
  intro j k h
  by_cases hj : j = 0 <;> by_cases hk : k = 0
  · rw [hj, hk]
  · exfalso
    rw [hj] at h
    rw [show candidate base 0 = base ++ ".md" from rfl, hsuffix k hk] at h
    have h2 : ".md" = "_" ++ (Nat.repr k ++ ".md") := string_append_left_cancel h
    have h3 := congrArg String.data h2
    simp only [String.data_append] at h3
    simp only [List.cons_append, List.nil_append] at h3
    injection h3 with h4 _
    exact absurd h4 (by decide)
  · exfalso
    rw [hk] at h
    rw [show candidate base 0 = base ++ ".md" from rfl, hsuffix j hj] at h
    have h2 : "_" ++ (Nat.repr j ++ ".md") = ".md" := string_append_left_cancel h
    have h3 := congrArg String.data h2
    simp only [String.data_append] at h3
    simp only [List.cons_append, List.nil_append] at h3
    injection h3 with h4 _
    exact absurd h4 (by decide)
  · rw [hsuffix j hj, hsuffix k hk] at h
    have h2 : Nat.repr j ++ ".md" = Nat.repr k ++ ".md" :=
      string_append_left_cancel (string_append_left_cancel h)
    exact natRepr_injective j k (string_append_right_cancel h2)

/-- Pigeonhole: among the first length-plus-one candidates, one is free
of any finite existing-file list. -/
theorem exists_free_candidate (existing : List String) (base : String) :
    ∃ j, j < existing.length + 1 ∧ candidate base j ∉ existing := by
  by_contra hall
  push_neg at hall
  have hsub : ((List.range (existing.length + 1)).map (candidate base)) ⊆ existing := by
    intro x hx
    rcases List.mem_map.mp hx with ⟨j, hj, rfl⟩
    exact hall j (List.mem_range.mp hj)
  have hnodup : ((List.range (existing.length + 1)).map (candidate base)).Nodup :=
    List.Nodup.map (fun a b hab => candidate_injective base a b hab) (List.nodup_range _)
  have hlen := (List.subperm_of_subset hnodup hsub).length_le
  simp only [List.length_map, List.length_range] at hlen
  omega

/-- The loop succeeds and returns an unused name whenever some candidate
within fuel range is unused. -/
theorem findFreeName_some :
    ∀ (fuel k : Nat) (existing : List String) (base : String),
      (∃ j, k ≤ j ∧ j < k + fuel ∧ candidate base j ∉ existing) →
      ∃ r, findFreeName existing base fuel k = some r ∧ r ∉ existing
  | 0, k, existing, base, h => by
      obtain ⟨j, hj1, hj2, _⟩ := h
      omega
  | fuel+1, k, existing, base, h => by
      by_cases hk : candidate base k ∈ existing
      · obtain ⟨j, hj1, hj2, hj3⟩ := h
        have hjk : j ≠ k := fun he => by subst he; exact hj3 hk
        obtain ⟨r, hr1, hr2⟩ :=
          findFreeName_some fuel (k+1) existing base ⟨j, by omega, by omega, hj3⟩
        refine ⟨r, ?_, hr2⟩
        rw [show findFreeName existing base (fuel+1) k =
          if candidate base k ∈ existing then findFreeName existing base fuel (k+1)
          else some (candidate base k) from rfl, if_pos hk]
        exact hr1
      · refine ⟨candidate base k, ?_, hk⟩
        rw [show findFreeName existing base (fuel+1) k =
          if candidate base k ∈ existing then findFreeName existing base fuel (k+1)
          else some (candidate base k) from rfl, if_neg hk]

/-- Whatever the loop returns is a candidate name unused in the
directory. -/
theorem findFreeName_not_mem :
    ∀ (fuel k : Nat) (existing : List String) (base : String) (r : String),
      findFreeName existing base fuel k = some r → r ∉ existing
  | 0, k, existing, base, r, h => by cases h
  | fuel+1, k, existing, base, r, h => by
      by_cases hk : candidate base k ∈ existing
      · rw [show findFreeName existing base (fuel+1) k =
          if candidate base k ∈ existing then findFreeName existing base fuel (k+1)
          else some (candidate base k) from rfl, if_pos hk] at h
        exact findFreeName_not_mem fuel (k+1) existing base r h
      · rw [show findFreeName existing base (fuel+1) k =
          if candidate base k ∈ existing then findFreeName existing base fuel (k+1)
          else some (candidate base k) from rfl, if_neg hk] at h
        injection h with h2
        rw [← h2]
        exact hk

/-- C9: for every finite set of existing file names, the collision loop
of Create terminates with some name (the fuel bound of one more than
the directory size is never exhausted), the returned name is not among
the existing ones, and the candidate names tried by the loop are
pairwise distinct (a name is never reused within one invocation). -/
theorem C9_unique_filename_terminates (existing : List String) (base : String) :
    (∃ r, uniqueFilename existing base = some r ∧ r ∉ existing) ∧
    ((List.range (existing.length + 1)).map (candidate base)).Nodup := by
  constructor
  · obtain ⟨j, hj1, hj2⟩ := exists_free_candidate existing base
    exact findFreeName_some (existing.length + 1) 0 existing base
      ⟨j, Nat.zero_le j, by omega, hj2⟩
  · exact List.Nodup.map (fun a b hab => candidate_injective base a b hab)
      (List.nodup_range _)

/-- C1 evaluated at a failing input: with the satellite-document write
raising (docFail true, the exception swallowed inside the template
writer), Create still appends the record and saves: the persisted
registry sequence grows from empty to one entry while the directory
holds no document.  The registry does record the entry on
document-creation failure. -/
theorem C1_orphan_registry_entry :
    (loadRegistry st0.registryFile).1 = [] ∧
    (cmd_epistle_new newArgsAB envJan true st0).1.dirFiles = [] ∧
    (loadRegistry (cmd_epistle_new newArgsAB envJan true st0).1.registryFile).1.length = 1 ∧
    (loadRegistry (cmd_epistle_new newArgsAB envJan true st0).1.registryFile).1 ≠
      (loadRegistry st0.registryFile).1 := by
  refine ⟨rfl, rfl, rfl, by decide⟩

/-- Loading right after a successful save returns the saved records. -/
theorem load_after_save_ok (eps : List Epistle) (prev : Option (List Line)) :
    (loadRegistry (saveRegistry eps SaveOutcome.ok prev).1).1 = eps := by
  simp [loadRegistry, saveRegistry, loadAux_map_record]

/-- A successful Create chose a file name absent from the directory,
added exactly that name to the directory, and appended exactly the new
record to the persisted registry sequence. -/
theorem cmd_new_some (args : NewArgs) (env : Env) (s s2 : FState) (ep : Epistle)
    (h : cmd_epistle_new args env false s = (s2, some ep)) :
    ep.file ∉ s.dirFiles ∧ s2.dirFiles = s.dirFiles ++ [ep.file] ∧
    (loadRegistry s2.registryFile).1 = (loadRegistry s.registryFile).1 ++ [ep] := by
  simp only [cmd_epistle_new] at h
  split at h
  · split at h
    · simp at h
    · split at h
      · simp at h
      · rename_i filename heq
        simp only [Prod.mk.injEq, Option.some.injEq] at h
        obtain ⟨hs2, hep⟩ := h
        subst hs2
        subst hep
        refine ⟨?_, rfl, ?_⟩
        · exact findFreeName_not_mem (s.dirFiles.length + 1) 0 s.dirFiles _ filename heq
        · exact load_after_save_ok _ s.registryFile
  · split at h
    · simp at h
    · rename_i hlen
      exact absurd (by decide) hlen

/-- A Create that exits early leaves the state untouched. -/
theorem cmd_new_none (args : NewArgs) (env : Env) (s s2 : FState)
    (h : cmd_epistle_new args env false s = (s2, none)) : s2 = s := by
  simp only [cmd_epistle_new] at h
  split at h
  · split at h
    · simp only [Prod.mk.injEq] at h
      exact h.1.symm
    · split at h
      · simp only [Prod.mk.injEq] at h
        exact h.1.symm
      · simp at h
  · split at h
    · simp only [Prod.mk.injEq] at h
      exact h.1.symm
    · rename_i hlen
      exact absurd (by decide) hlen

/-- Across any sequence of Creates, no created file name collides with a
name already in the directory, and the created names are pairwise
distinct. -/
theorem runCreates_files :
    ∀ (ins : List (NewArgs × Env)) (s : FState),
      (∀ g ∈ s.dirFiles, g ∉ (runCreates s ins).2.map Epistle.file) ∧
      ((runCreates s ins).2.map Epistle.file).Nodup
  | [], s => by simp [runCreates]
  | (a, e) :: ins, s => by
      rcases hc : cmd_epistle_new a e false s with ⟨s2, r⟩
      match r with
      | none =>
          have hs : s2 = s := cmd_new_none a e s s2 hc
          subst hs
          have ih := runCreates_files ins s2
          simp only [runCreates, hc]
          exact ih
      | some ep =>
          obtain ⟨hfresh, hdir, _⟩ := cmd_new_some a e s s2 ep hc
          have ih := runCreates_files ins s2
          simp only [runCreates, hc]
          constructor
          · intro g hg hmem
            rw [List.map_cons] at hmem
            rcases List.mem_cons.mp hmem with hge | hmem2
            · exact hfresh (hge ▸ hg)
            · exact ih.1 g (by rw [hdir]; exact List.mem_append_left _ hg) hmem2
          · rw [List.map_cons]
            refine List.nodup_cons.mpr ⟨?_, ih.2⟩
            have hmem : ep.file ∈ s2.dirFiles := by
              rw [hdir]
              exact List.mem_append_right _ (List.mem_singleton.mpr rfl)
            exact ih.1 ep.file hmem

/-- The registry persisted after a sequence of Creates holds the prior
records followed by exactly the created records. -/
theorem runCreates_registry :
    ∀ (ins : List (NewArgs × Env)) (s : FState),
      (loadRegistry (runCreates s ins).1.registryFile).1 =
        (loadRegistry s.registryFile).1 ++ (runCreates s ins).2
  | [], s => by simp [runCreates]
  | (a, e) :: ins, s => by
      rcases hc : cmd_epistle_new a e false s with ⟨s2, r⟩
      match r with
      | none =>
          have hs : s2 = s := cmd_new_none a e s s2 hc
          subst hs
          simp only [runCreates, hc]
          exact runCreates_registry ins s2
      | some ep =>
          obtain ⟨_, _, hreg⟩ := cmd_new_some a e s s2 ep hc
          simp only [runCreates, hc]
          rw [runCreates_registry ins s2, hreg, List.append_assoc]
          rfl

/-- C5: starting from an empty registry, any sequence of Create calls,
including calls with identical personas and identical second-resolution
timestamps, leaves a registry whose file values are pairwise distinct
(the collision loop consults the directory, to which each Create adds
its document). -/
theorem C5_create_files_distinct (s : FState) (ins : List (NewArgs × Env))
    (hempty : (loadRegistry s.registryFile).1 = []) :
    (((loadRegistry (runCreates s ins).1.registryFile).1).map Epistle.file).Nodup := by
  rw [runCreates_registry ins s, hempty, List.nil_append]
  exact (runCreates_files ins s).2

/-- Witness for C5: two Creates with the same personas in the same
second; the suffix loop gives the second record the suffixed name, so
the two registry file values differ. -/
theorem C5_create_files_distinct_witness :
    (((loadRegistry
        (runCreates st0 [(newArgsAB, envJan), (newArgsAB, envJan)]).1.registryFile).1).map
      Epistle.file).Nodup ∧
    (runCreates st0 [(newArgsAB, envJan), (newArgsAB, envJan)]).2.map Epistle.file =
      ["alice_bob_20250101T000000.md", "alice_bob_20250101T000000_1.md"] :=
  ⟨C5_create_files_distinct st0 [(newArgsAB, envJan), (newArgsAB, envJan)] rfl, by rfl⟩
